import Mathlib

/-
Verification of the filecache package: a process-local, file-persisted
key/value cache organized into named buckets, each entry carrying an
optional TTL.  The Go source is embedded shallowly: the per-store map is an
association list, timestamps are integers, the serialization service is the
identity on typed payloads (structurally-compatible round trip), and the
filesystem is a parameter: each operation receives the result that
saveToFile would report, and returns the list of contents it handed to
saveToFile, so persist behaviour is observable.
-/

namespace Filecache

/-- Errors surfaced by cache operations (wrapped I/O failures). -/
abbrev Err := String

/-- One cache entry (source: `cacheItem`): an opaque payload plus an
optional absolute expiration; `none` encodes a frozen entry. -/
structure cacheItem (V : Type) where
  value : V
  expiration : Option Int
deriving Repr, DecidableEq

/-- The in-memory map of one store (source: `CacheStore.data`, a Go map
whose iteration order is unspecified; the list fixes one such order). -/
abbrev StoreData (V : Type) := List (String × cacheItem V)

/-- Map lookup, `store.data[key]`. -/
def lookupKey {V : Type} (d : StoreData V) (k : String) : Option (cacheItem V) :=
  match d.find? (fun p => p.1 == k) with
  | some p => some p.2
  | none => none

/-- Map deletion, `delete(store.data, key)`. -/
def deleteKey {V : Type} (d : StoreData V) (k : String) : StoreData V :=
  d.filter (fun p => !(p.1 == k))

/-- Map assignment, `store.data[key] = item`. -/
def upsertKey {V : Type} (d : StoreData V) (k : String) (it : cacheItem V) :
    StoreData V :=
  (k, it) :: deleteKey d k

/-- Strict comparison of `time.Now().After(e)` at time `now`: true iff
`now` is strictly later than `e`. -/
def timeAfter (now e : Int) : Bool := decide (e < now)

/-- The expiration test used by `Get`, `Range` and `CleanBucket`:
`item.Expiration != nil && time.Now().After(*item.Expiration)`. -/
def isExpired {V : Type} (now : Int) (it : cacheItem V) : Bool :=
  match it.expiration with
  | none => false
  | some e => timeAfter now e

/-- Outcome of a mutating store operation: the in-memory map afterwards,
the contents handed to each `saveToFile` call (in order), and the error
the operation returns to its caller. -/
structure MutOut (V : Type) where
  data : StoreData V
  saves : List (StoreData V)
  err : Option Err
deriving Repr

/-- Outcome of a read operation: map afterwards, save calls made, the
found flag, the decoded value, and the returned error. -/
structure GetOut (V : Type) where
  data : StoreData V
  saves : List (StoreData V)
  found : Bool
  value : Option V
  err : Option Err
deriving Repr

/-- Source: `Cacher.Set` after store resolution: upsert with
`Expiration = now + ttl`, then return `store.saveToFile()`. The
filesystem's answer to that save is the parameter `saveRes`. -/
def set {V : Type} (d : StoreData V) (now ttl : Int) (key : String) (v : V)
    (saveRes : Option Err) : MutOut V :=
  let d2 := upsertKey d key ⟨v, some (now + ttl)⟩
  ⟨d2, [d2], saveRes⟩

/-- Source: `Cacher.SetFrozen`: upsert with `Expiration = nil`, then
return `store.saveToFile()`. -/
def setFrozen {V : Type} (d : StoreData V) (key : String) (v : V)
    (saveRes : Option Err) : MutOut V :=
  let d2 := upsertKey d key ⟨v, none⟩
  ⟨d2, [d2], saveRes⟩

/-- Source: `Cacher.Delete`: delete the key, then return
`store.saveToFile()`. -/
def delete {V : Type} (d : StoreData V) (key : String)
    (saveRes : Option Err) : MutOut V :=
  let d2 := deleteKey d key
  ⟨d2, [d2], saveRes⟩

/-- Source: `Cacher.Get`. Absent key: `(false, nil)`. Present and expired:
delete, call `saveToFile` but discard its result
(`_ = store.saveToFile() // Ignore errors here`), return `(false, nil)`.
Otherwise decode (identity here) and return `(true, nil)`. -/
def get {V : Type} (d : StoreData V) (now : Int) (key : String)
    (saveRes : Option Err) : GetOut V :=
  match lookupKey d key with
  | none => ⟨d, [], false, none, none⟩
  | some it =>
    if isExpired now it then
      let d2 := deleteKey d key
      ⟨d2, [d2], false, none, none⟩
    else
      ⟨d, [], true, some it.value, none⟩

/-- Source: `Cacher.GetFrozen`: lookup with no expiration check, no
mutation and no save call. -/
def getFrozen {V : Type} (d : StoreData V) (key : String) : GetOut V :=
  match lookupKey d key with
  | none => ⟨d, [], false, none, none⟩
  | some it => ⟨d, [], true, some it.value, none⟩

/-- The loop of `Range`: walk the entries in order; an expired entry is
deleted; a live entry is decoded and handed to the visitor; when the
visitor returns false the loop breaks, leaving every remaining entry
untouched. Returns the surviving entries and the visited pairs. -/
def rangeWalk {V : Type} (now : Int) (f : String → V → Bool) :
    StoreData V → StoreData V × List (String × V)
  | [] => ([], [])
  | (k, it) :: rest =>
    if isExpired now it then rangeWalk now f rest
    else if f k it.value then
      ((k, it) :: (rangeWalk now f rest).1, (k, it.value) :: (rangeWalk now f rest).2)
    else ((k, it) :: rest, [(k, it.value)])

/-- Outcome of `Range`: map afterwards, save calls, pairs handed to the
visitor in order, and the returned error. -/
structure RangeOut (V : Type) where
  data : StoreData V
  saves : List (StoreData V)
  visited : List (String × V)
  err : Option Err
deriving Repr

/-- Source: generic `Range`: run the walk, then `return store.saveToFile()`
unconditionally (the save happens whether or not the visitor stopped). -/
def range {V : Type} (d : StoreData V) (now : Int) (f : String → V → Bool)
    (saveRes : Option Err) : RangeOut V :=
  let w := rangeWalk now f d
  ⟨w.1, [w.1], w.2, saveRes⟩

/-- Outcome of `GetAll`: map afterwards, save calls, the collected pairs,
and the returned error. -/
structure GetAllOut (V : Type) where
  data : StoreData V
  saves : List (StoreData V)
  result : List (String × V)
  err : Option Err
deriving Repr

/-- Source: generic `GetAll`: a `Range` with an always-continue collector;
if that errs, return `(nil, err)`; otherwise a second `saveToFile` on the
same store and return the collected map with that save's result. -/
def getAll {V : Type} (d : StoreData V) (now : Int)
    (saveRes : Option Err) : GetAllOut V :=
  let r := range d now (fun _ _ => true) saveRes
  match r.err with
  | some e => ⟨r.data, r.saves, [], some e⟩
  | none => ⟨r.data, r.saves ++ [r.data], r.visited, saveRes⟩

/-- The loop of `DeleteIf`: every entry is decoded and tested — with no
expiration check — and deleted when the predicate holds. -/
def deleteIfWalk {V : Type} (cond : String → V → Bool) :
    StoreData V → StoreData V
  | [] => []
  | (k, it) :: rest =>
    if cond k it.value then deleteIfWalk cond rest
    else (k, it) :: deleteIfWalk cond rest

/-- Source: generic `DeleteIf`: run the walk, then return
`store.saveToFile()`. -/
def deleteIf {V : Type} (d : StoreData V) (cond : String → V → Bool)
    (saveRes : Option Err) : MutOut V :=
  ⟨deleteIfWalk cond d, [deleteIfWalk cond d], saveRes⟩

/-- Source: `Cacher.EmptyBucket`: replace the map with an empty one, then
return `store.saveToFile()`. -/
def emptyBucket {V : Type} (_d : StoreData V) (saveRes : Option Err) : MutOut V :=
  ⟨[], [[]], saveRes⟩

/-- Source: `Cacher.CleanBucket`: delete every expired entry, then return
`store.saveToFile()`. -/
def cleanBucket {V : Type} (d : StoreData V) (now : Int)
    (saveRes : Option Err) : MutOut V :=
  let d2 := d.filter (fun p => !isExpired now p.2)
  ⟨d2, [d2], saveRes⟩

/-- Source: the package-level variable `Ext = ".cache"`. -/
def Ext : String := ".cache"

/-- The registry (source: `Cacher`): directory, names of the loaded
stores, and the configured extension. -/
structure Cacher where
  dir : String
  stores : List String
  ext : String
deriving Repr, DecidableEq

/-- Path concatenation as performed by `filepath.Join(dir, base)` on an
already-clean directory and base name. -/
def goFilepathJoin (dir base : String) : String := dir ++ "/" ++ base

/-- Source: `NewCacher(dir)`: empty registry, extension set to `Ext`. -/
def NewCacher (dir : String) : Cacher := ⟨dir, [], Ext⟩

/-- Source: `NewCacherWithExt(dir, ext)`: empty registry, extension set to
the argument. -/
def NewCacherWithExt (dir ext : String) : Cacher := ⟨dir, [], ext⟩

/-- The backing file path `getStore` actually assigns to a new store:
`filepath.Join(c.dir, name+".cache")` — the literal `".cache"` suffix,
not `c.ext`. -/
def getStorePath (c : Cacher) (name : String) : String :=
  goFilepathJoin c.dir (name ++ ".cache")

/-- Spec-side definition, for comparison with `getStorePath`: the spec
prescribes the backing file path `dir/name.ext` with the Cacher's
configured extension. -/
def getStorePathSpec (c : Cacher) (name : String) : String :=
  goFilepathJoin c.dir (name ++ c.ext)

/-- One directory entry seen by `filepath.Walk`: its base name, whether it
is a directory, and its size in bytes. -/
structure FileEntry where
  name : String
  isDir : Bool
  size : Int
deriving Repr, DecidableEq

/-- Suffix test of `strings.HasSuffix(s, suffix)`, over the character
lists of the two strings. -/
def goHasSuffix (s suffix : String) : Bool :=
  suffix.data.isSuffixOf s.data

/-- The walk of `RemoveAllBy`: directories and files whose name lacks the
`Ext` suffix are skipped; a file with the suffix that passes the filter is
removed (`removeRes` is the filesystem's answer to that removal) — a
failed removal aborts the walk with the wrapped error, leaving that file
and every later entry untouched. Returns the surviving directory contents
and the walk's error. -/
def removeAllByWalk (filter : String → Bool) (removeRes : String → Option Err) :
    List FileEntry → List FileEntry × Option Err
  | [] => ([], none)
  | f :: rest =>
    if f.isDir then
      let w := removeAllByWalk filter removeRes rest
      (f :: w.1, w.2)
    else if !(goHasSuffix f.name Ext) then
      let w := removeAllByWalk filter removeRes rest
      (f :: w.1, w.2)
    else if filter f.name then
      match removeRes f.name with
      | some e => (f :: rest, some ("filecache: failed to remove file: " ++ e))
      | none => removeAllByWalk filter removeRes rest
    else
      let w := removeAllByWalk filter removeRes rest
      (f :: w.1, w.2)

/-- Source: `Cacher.RemoveAllBy`: run the directory walk, then
`c.stores = make(map[string]*CacheStore)` unconditionally, and return the
walk's error. Result: the Cacher afterwards, the surviving directory
contents, and the returned error. -/
def RemoveAllBy (c : Cacher) (filter : String → Bool)
    (removeRes : String → Option Err) (files : List FileEntry) :
    Cacher × List FileEntry × Option Err :=
  let w := removeAllByWalk filter removeRes files
  ({ c with stores := [] }, w.1, w.2)

/-- Source: `Cacher.GetTotalSize`: fold over the directory adding the size
of every non-directory entry, with no suffix filter; a walk error
(`walkRes`) is wrapped and yields 0. The Cacher is returned unchanged —
the method only reads the directory. -/
def GetTotalSize (c : Cacher) (files : List FileEntry)
    (walkRes : Option Err) : Int × Option Err × Cacher :=
  match walkRes with
  | some e =>
    (0, some ("filecache: failed to walk the cache directory: " ++ e), c)
  | none =>
    (files.foldl (fun acc f => if f.isDir then acc else acc + f.size) 0,
     none, c)

/-- Every pair in the visited list, except possibly the last one, made the
visitor answer true: iteration stopped at the first false answer. -/
def stopsAtFirstFalse {V : Type} (f : String → V → Bool) :
    List (String × V) → Bool
  | [] => true
  | [_] => true
  | p :: q :: rest => f p.1 p.2 && stopsAtFirstFalse f (q :: rest)

theorem lookupKey_upsert_self {V : Type} (d : StoreData V) (k : String)
    (it : cacheItem V) : lookupKey (upsertKey d k it) k = some it := by
  simp [lookupKey, upsertKey, List.find?_cons_of_pos]

theorem mem_deleteKey_ne {V : Type} {d : StoreData V} {k : String}
    {p : String × cacheItem V} (h : p ∈ deleteKey d k) : p.1 ≠ k := by
  simp [deleteKey, List.mem_filter] at h
  exact h.2

theorem get_err_none {V : Type} (d : StoreData V) (now : Int) (k : String)
    (s : Option Err) : (get d now k s).err = none := by
  unfold get
  cases hl : lookupKey d k
  · rfl
  · dsimp only
    split <;> rfl

theorem deleteIfWalk_eq_filter {V : Type} (cond : String → V → Bool)
    (d : StoreData V) :
    deleteIfWalk cond d = d.filter (fun p => !cond p.1 p.2.value) := by
  induction d with
  | nil => rfl
  | cons p rest ih =>
    obtain ⟨k0, it0⟩ := p
    by_cases h : cond k0 it0.value <;>
      simp [deleteIfWalk, h, ih, List.filter_cons]

theorem sizeFold_eq_sum (files : List FileEntry) (acc : Int) :
    files.foldl (fun a f => if f.isDir then a else a + f.size) acc =
      acc + ((files.filter (fun f => !f.isDir)).map FileEntry.size).sum := by
  induction files generalizing acc with
  | nil => simp
  | cons f rest ih =>
    by_cases h : f.isDir <;>
      simp [List.foldl_cons, h, ih, List.filter_cons] <;> omega

theorem rangeWalk_cons_expired {V : Type} {now : Int} {f : String → V → Bool}
    {k0 : String} {it0 : cacheItem V} {rest : StoreData V}
    (h : isExpired now it0 = true) :
    rangeWalk now f ((k0, it0) :: rest) = rangeWalk now f rest := by
  simp [rangeWalk, h]

theorem rangeWalk_cons_live {V : Type} {now : Int} {f : String → V → Bool}
    {k0 : String} {it0 : cacheItem V} {rest : StoreData V}
    (h : isExpired now it0 = false) (hf : f k0 it0.value = true) :
    rangeWalk now f ((k0, it0) :: rest) =
      ((k0, it0) :: (rangeWalk now f rest).1,
       (k0, it0.value) :: (rangeWalk now f rest).2) := by
  simp [rangeWalk, h, hf]

theorem rangeWalk_cons_stop {V : Type} {now : Int} {f : String → V → Bool}
    {k0 : String} {it0 : cacheItem V} {rest : StoreData V}
    (h : isExpired now it0 = false) (hf : f k0 it0.value = false) :
    rangeWalk now f ((k0, it0) :: rest) = ((k0, it0) :: rest, [(k0, it0.value)]) := by
  simp [rangeWalk, h, hf]

theorem rangeWalk_visited_mem {V : Type} (now : Int) (f : String → V → Bool)
    (d : StoreData V) :
    ∀ (k : String) (v : V), (k, v) ∈ (rangeWalk now f d).2 →
      ∃ it : cacheItem V, (k, it) ∈ d ∧ isExpired now it = false ∧ it.value = v := by
  induction d with
  | nil => intro k v h; simp [rangeWalk] at h
  | cons p rest ih =>
    obtain ⟨k0, it0⟩ := p
    intro k v h
    by_cases hexp : isExpired now it0 = true
    · rw [rangeWalk_cons_expired hexp] at h
      obtain ⟨it, hm, hx, hv⟩ := ih k v h
      exact ⟨it, List.mem_cons_of_mem _ hm, hx, hv⟩
    · have hexp2 : isExpired now it0 = false := Bool.eq_false_iff.mpr hexp
      by_cases hf : f k0 it0.value = true
      · rw [rangeWalk_cons_live hexp2 hf] at h
        rcases List.mem_cons.mp h with heq | htail
        · have hk1 : k = k0 := congrArg Prod.fst heq
          have hk2 : v = it0.value := congrArg Prod.snd heq
          subst hk1; subst hk2
          exact ⟨it0, List.mem_cons_self _ _, hexp2, rfl⟩
        · obtain ⟨it, hm, hx, hv⟩ := ih k v htail
          exact ⟨it, List.mem_cons_of_mem _ hm, hx, hv⟩
      · have hf2 : f k0 it0.value = false := Bool.eq_false_iff.mpr hf
        rw [rangeWalk_cons_stop hexp2 hf2] at h
        simp only [List.mem_singleton] at h
        have hk1 : k = k0 := congrArg Prod.fst h
        have hk2 : v = it0.value := congrArg Prod.snd h
        subst hk1; subst hk2
        exact ⟨it0, List.mem_cons_self _ _, hexp2, rfl⟩

theorem rangeWalk_data_subset {V : Type} (now : Int) (f : String → V → Bool)
    (d : StoreData V) :
    ∀ p : String × cacheItem V, p ∈ (rangeWalk now f d).1 → p ∈ d := by
  induction d with
  | nil => intro p h; simpa [rangeWalk] using h
  | cons q rest ih =>
    obtain ⟨k0, it0⟩ := q
    intro p h
    by_cases hexp : isExpired now it0 = true
    · rw [rangeWalk_cons_expired hexp] at h
      exact List.mem_cons_of_mem _ (ih p h)
    · have hexp2 : isExpired now it0 = false := Bool.eq_false_iff.mpr hexp
      by_cases hf : f k0 it0.value = true
      · rw [rangeWalk_cons_live hexp2 hf] at h
        rcases List.mem_cons.mp h with heq | htail
        · exact heq ▸ List.mem_cons_self _ _
        · exact List.mem_cons_of_mem _ (ih p htail)
      · have hf2 : f k0 it0.value = false := Bool.eq_false_iff.mpr hf
        rw [rangeWalk_cons_stop hexp2 hf2] at h
        exact h

theorem rangeWalk_stops {V : Type} (now : Int) (f : String → V → Bool)
    (d : StoreData V) :
    stopsAtFirstFalse f (rangeWalk now f d).2 = true := by
  induction d with
  | nil => rfl
  | cons p rest ih =>
    obtain ⟨k0, it0⟩ := p
    by_cases hexp : isExpired now it0 = true
    · rw [rangeWalk_cons_expired hexp]; exact ih
    · have hexp2 : isExpired now it0 = false := Bool.eq_false_iff.mpr hexp
      by_cases hf : f k0 it0.value = true
      · rw [rangeWalk_cons_live hexp2 hf]
        cases hvs : (rangeWalk now f rest).2 with
        | nil => rfl
        | cons q vs =>
          rw [hvs] at ih
          simp [stopsAtFirstFalse, hf, ih]
      · have hf2 : f k0 it0.value = false := Bool.eq_false_iff.mpr hf
        rw [rangeWalk_cons_stop hexp2 hf2]
        rfl

theorem rangeWalk_all_true {V : Type} (now : Int) (f : String → V → Bool)
    (hf : ∀ k v, f k v = true) (d : StoreData V) :
    rangeWalk now f d =
      (d.filter (fun p => !isExpired now p.2),
       (d.filter (fun p => !isExpired now p.2)).map (fun p => (p.1, p.2.value))) := by
  induction d with
  | nil => rfl
  | cons p rest ih =>
    obtain ⟨k0, it0⟩ := p
    by_cases hexp : isExpired now it0 = true
    · rw [rangeWalk_cons_expired hexp, ih]
      simp [List.filter_cons, hexp]
    · have hexp2 : isExpired now it0 = false := Bool.eq_false_iff.mpr hexp
      rw [rangeWalk_cons_live hexp2 (hf k0 it0.value), ih]
      simp [List.filter_cons, hexp2]

theorem getAll_result_sub {V : Type} (d : StoreData V) (now : Int)
    (s : Option Err) (k : String) (w : V)
    (h : (k, w) ∈ (getAll d now s).result) :
    (k, w) ∈ (rangeWalk now (fun _ _ => true) d).2 := by
  cases s with
  | none => simpa [getAll, range] using h
  | some e => simp [getAll, range] at h

theorem removeAllByWalk_all_ok (filter : String → Bool)
    (removeRes : String → Option Err) (hok : ∀ n, removeRes n = none) :
    ∀ files : List FileEntry,
      removeAllByWalk filter removeRes files =
        (files.filter
          (fun f => !(!f.isDir && goHasSuffix f.name Ext && filter f.name)),
         none) := by
  intro files
  induction files with
  | nil => rfl
  | cons f rest ih =>
    by_cases hdir : f.isDir = true
    · simp [removeAllByWalk, hdir, ih, List.filter_cons]
    · have hdir2 : f.isDir = false := Bool.eq_false_iff.mpr hdir
      by_cases hsuf : goHasSuffix f.name Ext = true
      · by_cases hfil : filter f.name = true
        · simp [removeAllByWalk, hdir2, hsuf, hfil, hok, ih, List.filter_cons]
        · have hfil2 : filter f.name = false := Bool.eq_false_iff.mpr hfil
          simp [removeAllByWalk, hdir2, hsuf, hfil2, ih, List.filter_cons]
      · have hsuf2 : goHasSuffix f.name Ext = false := Bool.eq_false_iff.mpr hsuf
        simp [removeAllByWalk, hdir2, hsuf2, ih, List.filter_cons]

/-- Claim C1 as stated is false on the code: with the single entry
`("k", value 0, expiration 0)` read at time 1 while the filesystem reports
a save failure, `get` evicts the entry, attempts the persist (`saves`
records the attempted content), and still returns a nil error. -/
theorem C1_counterexample :
    (get (V := Nat) [("k", ⟨0, some 0⟩)] 1 "k" (some "disk full")).found = false ∧
    (get (V := Nat) [("k", ⟨0, some 0⟩)] 1 "k" (some "disk full")).saves = [[]] ∧
    (get (V := Nat) [("k", ⟨0, some 0⟩)] 1 "k" (some "disk full")).err = none := by
  refine ⟨?_, ?_, ?_⟩ <;> rfl

/-- Claim C1 (amended): every mutating operation — set, setFrozen, delete,
range, getAll, deleteIf, emptyBucket, cleanBucket — returns to its caller
exactly the result of its persist, except the expired-entry eviction
performed inside get, which attempts the persist but discards its result:
get always returns a nil error, whatever the filesystem answered. -/
theorem C1_persist_propagation {V : Type} (d : StoreData V) (now ttl : Int)
    (k : String) (v : V) (f cond : String → V → Bool)
    (saveRes : Option Err) :
    (set d now ttl k v saveRes).err = saveRes ∧
    (setFrozen d k v saveRes).err = saveRes ∧
    (delete d k saveRes).err = saveRes ∧
    (range d now f saveRes).err = saveRes ∧
    (getAll d now saveRes).err = saveRes ∧
    (deleteIf d cond saveRes).err = saveRes ∧
    (emptyBucket d saveRes).err = saveRes ∧
    (cleanBucket d now saveRes).err = saveRes ∧
    (get d now k saveRes).err = none := by
  refine ⟨rfl, rfl, rfl, rfl, ?_, rfl, rfl, rfl, get_err_none d now k saveRes⟩
  cases saveRes <;> rfl

/-- Claim C2 fails in the code: a Cacher built by `NewCacherWithExt` with
extension ".json" still resolves bucket "b" to a ".cache"-suffixed path
(`getStore` hardcodes the literal `".cache"` and never reads `c.ext`),
while the spec-prescribed path carries ".json". -/
theorem C2_ext_ignored :
    getStorePath (NewCacherWithExt "d" ".json") "b" = "d/b.cache" ∧
    getStorePathSpec (NewCacherWithExt "d" ".json") "b" = "d/b.json" ∧
    getStorePath (NewCacherWithExt "d" ".json") "b" ≠
      getStorePathSpec (NewCacherWithExt "d" ".json") "b" := by
  refine ⟨rfl, rfl, ?_⟩
  decide

/-- Claim C4: after a set with positive ttl, an immediate get (same
timestamp) finds the key and returns the stored value unchanged. -/
theorem C4_set_then_get {V : Type} (d0 : StoreData V) (now ttl : Int)
    (k : String) (v : V) (s1 s2 : Option Err) (h : 0 < ttl) :
    (get (set d0 now ttl k v s1).data now k s2).found = true ∧
    (get (set d0 now ttl k v s1).data now k s2).value = some v := by
  have hl : lookupKey (set d0 now ttl k v s1).data k =
      some ⟨v, some (now + ttl)⟩ := lookupKey_upsert_self d0 k _
  have hx : isExpired now (⟨v, some (now + ttl)⟩ : cacheItem V) = false := by
    show timeAfter now (now + ttl) = false
    simp only [timeAfter, decide_eq_false_iff_not]
    omega
  constructor <;> simp [get, hl, hx]

theorem C4_set_then_get_witness :
    (get (set ([] : StoreData Nat) 0 3 "k" 7 none).data 0 "k" none).found = true ∧
    (get (set ([] : StoreData Nat) 0 3 "k" 7 none).data 0 "k" none).value = some 7 :=
  C4_set_then_get [] 0 3 "k" 7 none none (by decide)

/-- Claim C7: deleteIf removes exactly the entries the predicate matches —
every entry is tested, with no expiration check, so expired and frozen
entries are included — leaves the non-matching entries unchanged and in
order, and hands the result to one persist whose outcome is returned. -/
theorem C7_deleteIf {V : Type} (d : StoreData V) (cond : String → V → Bool)
    (saveRes : Option Err) :
    (deleteIf d cond saveRes).data = d.filter (fun p => !cond p.1 p.2.value) ∧
    (∀ p : String × cacheItem V,
      p ∈ (deleteIf d cond saveRes).data ↔ p ∈ d ∧ cond p.1 p.2.value = false) ∧
    (deleteIf d cond saveRes).saves = [(deleteIf d cond saveRes).data] ∧
    (deleteIf d cond saveRes).err = saveRes := by
  refine ⟨deleteIfWalk_eq_filter cond d, ?_, rfl, rfl⟩
  intro p
  show p ∈ deleteIfWalk cond d ↔ _
  rw [deleteIfWalk_eq_filter cond d]
  simp [List.mem_filter]

theorem C7_deleteIf_witness :
    (deleteIf [("a", ⟨(1 : Nat), some 0⟩), ("b", ⟨2, none⟩)]
        (fun k _ => k == "a") none).data = [("b", ⟨2, none⟩)] ∧
    (∀ p : String × cacheItem Nat,
      p ∈ (deleteIf [("a", ⟨(1 : Nat), some 0⟩), ("b", ⟨2, none⟩)]
        (fun k _ => k == "a") none).data ↔
      p ∈ [("a", ⟨(1 : Nat), some 0⟩), ("b", ⟨2, none⟩)] ∧
        (p.1 == "a") = false) ∧
    (deleteIf [("a", ⟨(1 : Nat), some 0⟩), ("b", ⟨2, none⟩)]
        (fun k _ => k == "a") none).saves =
      [(deleteIf [("a", ⟨(1 : Nat), some 0⟩), ("b", ⟨2, none⟩)]
        (fun k _ => k == "a") none).data] ∧
    (deleteIf [("a", ⟨(1 : Nat), some 0⟩), ("b", ⟨2, none⟩)]
        (fun k _ => k == "a") none).err = none := by
  have h := C7_deleteIf [("a", ⟨(1 : Nat), some 0⟩), ("b", ⟨2, none⟩)]
    (fun k _ => k == "a") none
  refine ⟨by rfl, h.2.1, h.2.2.1, h.2.2.2⟩

/-- Claim C8: an entry stored by setFrozen carries no expiration; at any
later time both get (the TTL-checking read) and getFrozen find it and
return the stored value, and get neither mutates the store nor calls
the persist. -/
theorem C8_frozen_never_expires {V : Type} (d0 : StoreData V) (k : String)
    (v : V) (later : Int) (s1 s2 : Option Err) :
    (get (setFrozen d0 k v s1).data later k s2).found = true ∧
    (get (setFrozen d0 k v s1).data later k s2).value = some v ∧
    (get (setFrozen d0 k v s1).data later k s2).data =
      (setFrozen d0 k v s1).data ∧
    (get (setFrozen d0 k v s1).data later k s2).saves = [] ∧
    (getFrozen (setFrozen d0 k v s1).data k).found = true ∧
    (getFrozen (setFrozen d0 k v s1).data k).value = some v := by
  have hl : lookupKey (setFrozen d0 k v s1).data k = some ⟨v, none⟩ :=
    lookupKey_upsert_self d0 k _
  have hx : isExpired later (⟨v, none⟩ : cacheItem V) = false := rfl
  refine ⟨?_, ?_, ?_, ?_, ?_, ?_⟩ <;> simp [get, getFrozen, hl, hx]

/-- Claim C9: GetTotalSize returns the Cacher unchanged for every walk
outcome (read-only scan), sums the sizes of all non-directory entries
with no suffix filter, and returns 0 on an empty directory. -/
theorem C9_getTotalSize (c : Cacher) (files : List FileEntry)
    (walkRes : Option Err) :
    (GetTotalSize c files walkRes).2.2 = c ∧
    (GetTotalSize c files none).1 =
      ((files.filter (fun f => !f.isDir)).map FileEntry.size).sum ∧
    (GetTotalSize c ([] : List FileEntry) none).1 = 0 := by
  refine ⟨?_, ?_, rfl⟩
  · cases walkRes <;> rfl
  · simpa using sizeFold_eq_sum files 0

/-- Claim C10: on an entry whose expiration is strictly in the past —
which get would evict — getFrozen still returns found with the stored
value, mutates nothing and performs no save. -/
theorem C10_getFrozen_expired {V : Type} (d : StoreData V) (k : String)
    (v : V) (e now : Int) (hmem : lookupKey d k = some ⟨v, some e⟩)
    (hpast : e < now) :
    isExpired now (⟨v, some e⟩ : cacheItem V) = true ∧
    (getFrozen d k).found = true ∧
    (getFrozen d k).value = some v ∧
    (getFrozen d k).data = d ∧
    (getFrozen d k).saves = [] := by
  refine ⟨?_, ?_, ?_, ?_, ?_⟩ <;>
    simp [isExpired, timeAfter, hpast, getFrozen, hmem]

theorem C10_getFrozen_expired_witness :
    isExpired 5 (⟨(7 : Nat), some 0⟩ : cacheItem Nat) = true ∧
    (getFrozen [("k", ⟨(7 : Nat), some 0⟩)] "k").found = true ∧
    (getFrozen [("k", ⟨(7 : Nat), some 0⟩)] "k").value = some 7 ∧
    (getFrozen [("k", ⟨(7 : Nat), some 0⟩)] "k").data =
      [("k", ⟨(7 : Nat), some 0⟩)] ∧
    (getFrozen [("k", ⟨(7 : Nat), some 0⟩)] "k").saves = [] :=
  C10_getFrozen_expired [("k", ⟨(7 : Nat), some 0⟩)] "k" 7 0 5 (by rfl)
    (by decide)

/-- Claim C3 as stated is false at the boundary: an entry set at time 0
with ttl 5 and read at time 5 — elapsed time equal to the ttl — is still
found with its value, because the code expires an entry only strictly
after its expiration (`time.Now().After`), while the claim demands
(false, _) for elapsed time greater than or equal to the ttl. -/
theorem C3_boundary_counterexample :
    (get (set ([] : StoreData Nat) 0 5 "k" 7 none).data 5 "k" none).found = true ∧
    (get (set ([] : StoreData Nat) 0 5 "k" 7 none).data 5 "k" none).value = some 7 :=
  ⟨rfl, rfl⟩

/-- Claim C3 (amended): for an entry set at time t0 with ttl d, get at time
now returns (true, V) while the elapsed time now - t0 is at most d, and
(false, _) once it strictly exceeds d; after such an expired get the key
is absent from subsequent range and getAll results. -/
theorem C3_ttl_semantics {V : Type} (d0 : StoreData V) (t0 ttl now : Int)
    (k : String) (v : V) (s1 s2 s3 : Option Err) :
    (now - t0 ≤ ttl →
      (get (set d0 t0 ttl k v s1).data now k s2).found = true ∧
      (get (set d0 t0 ttl k v s1).data now k s2).value = some v) ∧
    (ttl < now - t0 →
      (get (set d0 t0 ttl k v s1).data now k s2).found = false ∧
      (∀ (f : String → V → Bool) (w : V),
        (k, w) ∉
          (range (get (set d0 t0 ttl k v s1).data now k s2).data now f s3).visited) ∧
      (∀ w : V,
        (k, w) ∉
          (getAll (get (set d0 t0 ttl k v s1).data now k s2).data now s3).result)) := by
  have hl : lookupKey (set d0 t0 ttl k v s1).data k =
      some ⟨v, some (t0 + ttl)⟩ := lookupKey_upsert_self d0 k _
  constructor
  · intro h
    have hx : isExpired now (⟨v, some (t0 + ttl)⟩ : cacheItem V) = false := by
      show timeAfter now (t0 + ttl) = false
      simp only [timeAfter, decide_eq_false_iff_not]
      omega
    constructor <;> simp [get, hl, hx]
  · intro h
    have hx : isExpired now (⟨v, some (t0 + ttl)⟩ : cacheItem V) = true := by
      show timeAfter now (t0 + ttl) = true
      simp only [timeAfter, decide_eq_true_eq]
      omega
    have hdata : (get (set d0 t0 ttl k v s1).data now k s2).data =
        deleteKey (set d0 t0 ttl k v s1).data k := by
      simp [get, hl, hx]
    refine ⟨by simp [get, hl, hx], ?_, ?_⟩
    · intro f w hmem
      rw [hdata] at hmem
      obtain ⟨it, hm, _, _⟩ :=
        rangeWalk_visited_mem now f (deleteKey (set d0 t0 ttl k v s1).data k)
          k w hmem
      exact mem_deleteKey_ne hm rfl
    · intro w hmem
      rw [hdata] at hmem
      obtain ⟨it, hm, _, _⟩ :=
        rangeWalk_visited_mem now (fun _ _ => true)
          (deleteKey (set d0 t0 ttl k v s1).data k) k w
          (getAll_result_sub _ now s3 k w hmem)
      exact mem_deleteKey_ne hm rfl

theorem C3_ttl_semantics_witness :
    ((get (set ([] : StoreData Nat) 0 5 "k" 7 none).data 3 "k" none).found = true ∧
     (get (set ([] : StoreData Nat) 0 5 "k" 7 none).data 3 "k" none).value = some 7) ∧
    (get (set ([] : StoreData Nat) 0 5 "k" 7 none).data 9 "k" none).found = false := by
  have h1 := (C3_ttl_semantics ([] : StoreData Nat) 0 5 3 "k" 7 none none none).1
    (by decide)
  have h2 := (C3_ttl_semantics ([] : StoreData Nat) 0 5 9 "k" 7 none none none).2
    (by decide)
  exact ⟨h1, h2.1⟩

/-- Claim C5: range persists exactly once, at the end, whatever the visitor
did, returning the persist's outcome and handing it the surviving map; it
never invents entries; every pair handed to the visitor comes from a
non-expired entry of the original map; iteration stops at the first false
answer of the visitor; and on a full walk (visitor always true) the
surviving map is exactly the non-expired entries and the visitor saw
exactly those, in order. -/
theorem C5_range_spec {V : Type} (d : StoreData V) (now : Int)
    (f : String → V → Bool) (saveRes : Option Err) :
    ((range d now f saveRes).err = saveRes ∧
     (range d now f saveRes).saves = [(range d now f saveRes).data]) ∧
    (∀ p : String × cacheItem V, p ∈ (range d now f saveRes).data → p ∈ d) ∧
    (∀ (k : String) (v : V), (k, v) ∈ (range d now f saveRes).visited →
      ∃ it : cacheItem V, (k, it) ∈ d ∧ isExpired now it = false ∧
        it.value = v) ∧
    stopsAtFirstFalse f (range d now f saveRes).visited = true ∧
    ((∀ k v, f k v = true) →
      (range d now f saveRes).data = d.filter (fun p => !isExpired now p.2) ∧
      (range d now f saveRes).visited =
        (d.filter (fun p => !isExpired now p.2)).map (fun p => (p.1, p.2.value))) := by
  refine ⟨⟨rfl, rfl⟩, rangeWalk_data_subset now f d,
    rangeWalk_visited_mem now f d, rangeWalk_stops now f d, ?_⟩
  intro hf
  have h := rangeWalk_all_true now f hf d
  constructor
  · show (rangeWalk now f d).1 = _
    rw [h]
  · show (rangeWalk now f d).2 = _
    rw [h]

theorem C5_range_spec_witness :
    (range [("a", ⟨(1 : Nat), some 0⟩), ("b", ⟨2, none⟩)] 5
      (fun _ _ => true) (some "boom")).err = some "boom" ∧
    (range [("a", ⟨(1 : Nat), some 0⟩), ("b", ⟨2, none⟩)] 5
      (fun _ _ => true) (some "boom")).data = [("b", ⟨2, none⟩)] ∧
    (range [("a", ⟨(1 : Nat), some 0⟩), ("b", ⟨2, none⟩)] 5
      (fun _ _ => true) (some "boom")).visited = [("b", (2 : Nat))] := by
  have h := C5_range_spec [("a", ⟨(1 : Nat), some 0⟩), ("b", ⟨2, none⟩)] 5
    (fun _ _ => true) (some "boom")
  refine ⟨h.1.1, ?_, ?_⟩
  · rw [(h.2.2.2.2 (fun _ _ => rfl)).1]
    rfl
  · rw [(h.2.2.2.2 (fun _ _ => rfl)).2]
    rfl

/-- Claim C6: RemoveAllBy clears the in-memory registry unconditionally —
for every walk outcome, including a failing one — while leaving the
directory field intact, returns exactly the walk's error, and, when every
removal succeeds, deletes exactly the non-directory files whose names
carry the Ext suffix and match the filter, leaving every other directory
entry in place and reporting no error. -/
theorem C6_removeAllBy (c : Cacher) (filter : String → Bool)
    (removeRes : String → Option Err) (files : List FileEntry) :
    (RemoveAllBy c filter removeRes files).1.stores = [] ∧
    (RemoveAllBy c filter removeRes files).1.dir = c.dir ∧
    (RemoveAllBy c filter removeRes files).2.2 =
      (removeAllByWalk filter removeRes files).2 ∧
    ((∀ n, removeRes n = none) →
      (RemoveAllBy c filter removeRes files).2.1 =
        files.filter
          (fun f => !(!f.isDir && goHasSuffix f.name Ext && filter f.name)) ∧
      (RemoveAllBy c filter removeRes files).2.2 = none) := by
  refine ⟨rfl, rfl, rfl, ?_⟩
  intro hok
  have h := removeAllByWalk_all_ok filter removeRes hok files
  constructor
  · show (removeAllByWalk filter removeRes files).1 = _
    rw [h]
  · show (removeAllByWalk filter removeRes files).2 = _
    rw [h]

theorem C6_removeAllBy_witness :
    (RemoveAllBy (NewCacher "d") (fun n => n == "a.cache") (fun _ => none)
      [⟨"a.cache", false, 3⟩, ⟨"b.cache", false, 4⟩, ⟨"x.txt", false, 5⟩,
       ⟨"sub", true, 0⟩]).1.stores = [] ∧
    (RemoveAllBy (NewCacher "d") (fun n => n == "a.cache") (fun _ => none)
      [⟨"a.cache", false, 3⟩, ⟨"b.cache", false, 4⟩, ⟨"x.txt", false, 5⟩,
       ⟨"sub", true, 0⟩]).2.1 =
      [⟨"b.cache", false, 4⟩, ⟨"x.txt", false, 5⟩, ⟨"sub", true, 0⟩] ∧
    (RemoveAllBy (NewCacher "d") (fun n => n == "a.cache") (fun _ => none)
      [⟨"a.cache", false, 3⟩, ⟨"b.cache", false, 4⟩, ⟨"x.txt", false, 5⟩,
       ⟨"sub", true, 0⟩]).2.2 = none := by
  have h := C6_removeAllBy (NewCacher "d") (fun n => n == "a.cache")
    (fun _ => none)
    [⟨"a.cache", false, 3⟩, ⟨"b.cache", false, 4⟩, ⟨"x.txt", false, 5⟩,
     ⟨"sub", true, 0⟩]
  refine ⟨h.1, ?_, (h.2.2.2 (fun _ => rfl)).2⟩
  rw [(h.2.2.2 (fun _ => rfl)).1]
  decide

end Filecache
